import Mathlib

/-!
# Verification of the nanocoap_sock blockwise-transfer core (RIOT)

Shallow embedding of `sys/include/net/nanocoap_sock.h`.  The header file
contains the real code of the `static inline` initializers
(`nanocoap_block_request_init`, `nanocoap_block_request_init_url`); the
remaining operations (`nanocoap_sock_block_request`,
`nanocoap_sock_get_blockwise`, `nanocoap_get_blockwise_url_to_buf`,
`nanocoap_sock_request_cb`) are only declared there, so their bodies are
modelled from the specification as noted on each definition.

Bytes are modelled as `Nat`, payloads as `List Nat`.  The external socket
collaborator (`sock_udp_create`, `sock_udp_sendv`, ...) is abstracted: its
result is a parameter of the functions that call it.
-/

namespace NanocoapSock

/-- Negative of this is returned when the reassembly buffer is too small
(`-ENOBUFS` in the header's documented contract). -/
def ENOBUFS : Int := 105

/-- Error classification for a transaction that timed out after the retry
budget was exhausted. -/
def ETIMEDOUT : Int := 110

/-- Error classification for a malformed response (e.g. a Block2 option
echoing a block number different from the requested one). -/
def EBADMSG : Int := 74

/-- CoAP block size from the SZX exponent: one block holds `2^(szx+4)`
bytes (RFC 7959; glossary of the spec). -/
def coap_szx2size (szx : Nat) : Nat := 2 ^ (szx + 4)

/-- Blockwise request helper struct `coap_block_request_t`
(nanocoap_sock.h, lines 152-158).  The `sock` member is the external
socket collaborator and is kept outside the model. -/
structure coap_block_request_t where
  path : String
  blknum : Nat
  method : Nat
  blksize : Nat
deriving Repr, DecidableEq

/-- Source function `nanocoap_block_request_init` (nanocoap_sock.h, lines 468-479): assigns
`path`, `blknum = 0`, `method` and `blksize` into the context and then
attempts the socket connection.  The connect step is the external
collaborator `nanocoap_sock_connect` / `sock_udp_create`; its result is
the parameter `connectResult`, returned unchanged. -/
def nanocoap_block_request_init (path : String) (method blksize : Nat)
    (connectResult : Int) : coap_block_request_t × Int :=
  ({ path := path, blknum := 0, method := method, blksize := blksize },
   connectResult)

/-- Source function `nanocoap_block_request_init_url` (nanocoap_sock.h, lines 492-502):
derives the path via the external `sock_urlpath` collaborator (parameter
`urlpathOf`), assigns the context fields, then attempts
`nanocoap_sock_url_connect` (external; result is the parameter
`connectResult`, returned unchanged). -/
def nanocoap_block_request_init_url (urlpathOf : String → String)
    (url : String) (method blksize : Nat)
    (connectResult : Int) : coap_block_request_t × Int :=
  ({ path := urlpathOf url, blknum := 0, method := method, blksize := blksize },
   connectResult)

/-- Outcome of one `nanocoap_sock_block_request` call: the (possibly
updated) context, the return value, the payload bytes placed in the
request, the block number and the more flag written into the Block1
option. -/
structure Block1Outcome where
  ctx : coap_block_request_t
  res : Int
  sent : List Nat
  blk1num : Nat
  moreFlag : Bool
deriving Repr, DecidableEq

/-- Modelled from the spec: `nanocoap_sock_block_request` (declared at
nanocoap_sock.h lines 534-536; body not in the surveyed header).  Per the
header's contract and spec section 4.3: the payload for this call is
clipped to one block of `2^(blksize+4)` bytes; the Block1 option carries
`(ctx.blknum, ctx.blksize, more)` where `more` is the caller hint OR
`len > block size`; the request is delegated to the transaction engine
(external here: `engineOk` says whether a matching 2.xx response arrived).
On success the block number advances by 1 and the number of accepted
payload bytes is returned; on failure the context is left unchanged and a
negative error is returned. -/
def nanocoap_sock_block_request (ctx : coap_block_request_t)
    (data : List Nat) (more : Bool) (engineOk : Bool) : Block1Outcome :=
  let bs := coap_szx2size ctx.blksize
  let sent := data.take bs
  let moreFlag := more || decide (data.length > bs)
  if engineOk then
    { ctx := { ctx with blknum := ctx.blknum + 1 },
      res := Int.ofNat sent.length,
      sent := sent, blk1num := ctx.blknum, moreFlag := moreFlag }
  else
    { ctx := ctx, res := -ETIMEDOUT,
      sent := sent, blk1num := ctx.blknum, moreFlag := moreFlag }

/-- Result of driving the Block1 send loop: final context, the accepted
blocks in block-number order, the more flags transmitted with the
accepted blocks, and whether the transfer completed (final block with
`more = false` acknowledged). -/
structure DriveResult where
  ctx : coap_block_request_t
  blocks : List (List Nat)
  flags : List Bool
  done : Bool

/-- Modelled from the spec: the caller-side Block1 send loop of spec
section 4.3 ("Caller drives this in a loop, one call per block, until the
final block (`more = false`) is acknowledged").  `sched` lists the
transaction-engine outcome of each attempted round; a failed round is
retried with the same remaining data (the context was left unchanged),
a successful round drops the accepted bytes from the remaining data. -/
def block1_drive : coap_block_request_t → List Nat → List Bool → DriveResult
  | ctx, _, [] => { ctx := ctx, blocks := [], flags := [], done := false }
  | ctx, data, false :: rest =>
    -- the transaction failed: the context was left unchanged, the caller
    -- retries the same block with the same remaining data
    block1_drive ctx data rest
  | ctx, data, true :: rest =>
    let out := nanocoap_sock_block_request ctx data false true
    if out.moreFlag then
      let r := block1_drive out.ctx (data.drop out.sent.length) rest
      { ctx := r.ctx, blocks := out.sent :: r.blocks,
        flags := out.moreFlag :: r.flags, done := r.done }
    else
      { ctx := out.ctx, blocks := [out.sent],
        flags := [out.moreFlag], done := true }

/-! ## Block2 fetch side -/

/-- One CoAP Block2 response as seen by the fetch controller: the block
number and SZX echoed in the response's Block2 option, the payload bytes
of this block, and the more flag. -/
structure Block2Response where
  blknum : Nat
  szx : Nat
  bytes : List Nat
  more : Bool
deriving Repr, DecidableEq

/-- Struct `coap_block_slicer_t` (spec section 3, Slicer): total payload length,
block-size exponent, current block number. -/
structure coap_block_slicer_t where
  total : Nat
  szx : Nat
  blknum : Nat
deriving Repr, DecidableEq

/-- Start of the byte range of the slicer's current block:
`blknum * blocksize`. -/
def slicer_start (s : coap_block_slicer_t) : Nat :=
  s.blknum * coap_szx2size s.szx

/-- End (exclusive) of the byte range of the slicer's current block:
`min (blknum * blocksize + blocksize) total`. -/
def slicer_end (s : coap_block_slicer_t) : Nat :=
  min (slicer_start s + coap_szx2size s.szx) s.total

/-- The slicer's more flag: `more = (range.end < total)` (spec section 3). -/
def slicer_more (s : coap_block_slicer_t) : Bool :=
  decide (slicer_end s < s.total)

/-- Modelled from the spec: the server-side mirror of the Block2 fetch
(spec section 4.4; the server code is outside the surveyed header).
Given the requested `(blknum, szx)`, the server clamps `szx` to its
maximum, computes the Slicer range for the requested block over its
payload, echoes the same `blknum` and reports the slicer's more flag. -/
def server_block2 (payload : List Nat) (serverMax : Nat)
    (blknum szx : Nat) : Block2Response :=
  let szx2 := min szx serverMax
  let s : coap_block_slicer_t :=
    { total := payload.length, szx := szx2, blknum := blknum }
  { blknum := blknum, szx := szx2,
    bytes := (payload.drop (slicer_start s)).take (slicer_end s - slicer_start s),
    more := slicer_more s }

/-- The honest transaction-engine view of a Block2 server: every round's
request `(blknum, szx)` is answered by the server's Block2 response. -/
def honest_engine (payload : List Nat) (serverMax : Nat) :
    Nat → Nat → Option Block2Response :=
  fun blknum szx => some (server_block2 payload serverMax blknum szx)

/-- Modelled from the spec: the Block2 fetch loop of
`nanocoap_sock_get_blockwise` (declared at nanocoap_sock.h lines 346-348;
body not in the surveyed header).  For `blknum = 0, 1, 2, ...` it sends a
GET with Block2 option `(blknum, szx)` through the transaction engine
(`engine blknum szx`; `none` is a transaction failure).  A response
echoing a different block number is a protocol error that aborts the
transfer.  The server-reported `szx` is adopted for the following rounds.
The received blocks (the callback trace, in block-number order) are
returned; the loop ends when a response carries `more = false`.  `fuel`
bounds the number of rounds. -/
def nanocoap_sock_get_blockwise
    (engine : Nat → Nat → Option Block2Response) :
    Nat → Nat → Nat → Except Int (List (List Nat))
  | 0, _, _ => Except.error (-ETIMEDOUT)
  | fuel + 1, blknum, szx =>
    match engine blknum szx with
    | none => Except.error (-ETIMEDOUT)
    | some resp =>
      if resp.blknum = blknum then
        if resp.more then
          match nanocoap_sock_get_blockwise engine fuel (blknum + 1) resp.szx with
          | Except.ok blocks => Except.ok (resp.bytes :: blocks)
          | Except.error e => Except.error e
        else
          Except.ok [resp.bytes]
      else
        Except.error (-EBADMSG)

/-- Result of the buffer-reassembly fetch: on success the total number of
bytes written and the final memory; on error the (negative) code and the
memory as it was left. -/
inductive FetchBufResult where
  | ok (total : Nat) (mem : List Nat)
  | err (code : Int) (mem : List Nat)
deriving Repr, DecidableEq

/-- The memory a fetch outcome left behind. -/
def FetchBufResult.buf : FetchBufResult → List Nat
  | .ok _ m => m
  | .err _ m => m

/-- Like `memcpy(mem + off, bytes, bytes.length)`: overwrite `mem` at offset
`off` with `bytes` (callers establish `off + bytes.length ≤ mem.length`). -/
def mem_write (mem : List Nat) (off : Nat) (bytes : List Nat) : List Nat :=
  mem.take off ++ bytes ++ mem.drop (off + bytes.length)

/-- Modelled from the spec: the buffer variant of the Block2 fetch loop
behind `nanocoap_get_blockwise_url_to_buf` (declared at nanocoap_sock.h
lines 390-392; body not in the surveyed header).  Same loop as
`nanocoap_sock_get_blockwise`, but each block is appended into the caller
memory at `offset = blknum * actualBlockSize`; before each append the
controller checks `offset + blockLength ≤ capacity` and aborts with
`-ENOBUFS` when the check fails; on normal completion the total number of
bytes written is returned. -/
def fetch_to_buf (engine : Nat → Nat → Option Block2Response)
    (capacity : Nat) :
    Nat → Nat → Nat → List Nat → FetchBufResult
  | 0, _, _, mem => FetchBufResult.err (-ETIMEDOUT) mem
  | fuel + 1, blknum, szx, mem =>
    match engine blknum szx with
    | none => FetchBufResult.err (-ETIMEDOUT) mem
    | some resp =>
      if resp.blknum = blknum then
        let off := blknum * coap_szx2size resp.szx
        if off + resp.bytes.length ≤ capacity then
          let mem2 := mem_write mem off resp.bytes
          if resp.more then
            fetch_to_buf engine capacity fuel (blknum + 1) resp.szx mem2
          else
            FetchBufResult.ok (off + resp.bytes.length) mem2
        else
          FetchBufResult.err (-ENOBUFS) mem
      else
        FetchBufResult.err (-EBADMSG) mem

/-! ## Transaction engine -/

/-- One event observed while blocked on the socket receive primitive:
either the bounded receive timeout fired, or a datagram carrying some
token and payload arrived. -/
inductive RxEvent where
  | timeout
  | dgram (token : List Nat) (payload : List Nat)
deriving Repr, DecidableEq

/-- Modelled from the spec: the receive/retry loop of
`nanocoap_sock_request_cb` (declared at nanocoap_sock.h lines 423-424;
body not in the surveyed header).  Per spec section 4.2: a received
datagram whose token matches the outstanding request is delivered; a
non-matching datagram is discarded and receiving continues; a receive
timeout retransmits the identical request while the retry budget lasts,
and exhausting the budget fails the transaction with a timeout
classification.  `events` is the observed sequence of receive outcomes
(exhausting it without a matching response is a timeout as well). -/
def engine_run (reqToken : List Nat) :
    Nat → List RxEvent → Except Int (List Nat)
  | _, [] => Except.error (-ETIMEDOUT)
  | retriesLeft, e :: rest =>
    match e with
    | RxEvent.timeout =>
      match retriesLeft with
      | 0 => Except.error (-ETIMEDOUT)
      | r + 1 => engine_run reqToken r rest
    | RxEvent.dgram tok payload =>
      if tok = reqToken then Except.ok payload
      else engine_run reqToken retriesLeft rest

/-! ## Helper lemmas -/

theorem coap_szx2size_pos (szx : Nat) : 0 < coap_szx2size szx :=
  pow_pos (by norm_num) _

theorem take_append_drop_length (l : List Nat) (n : Nat) :
    l.take n ++ l.drop (l.take n).length = l := by
  rw [List.length_take]
  rcases Nat.le_total n l.length with h | h
  · rw [Nat.min_eq_left h, List.take_append_drop]
  · rw [Nat.min_eq_right h, List.take_of_length_le h, List.drop_length,
      List.append_nil]

theorem mem_write_assoc (mem : List Nat) (off : Nat) (b : List Nat) :
    mem_write mem off b
      = (mem.take off ++ b) ++ mem.drop (off + b.length) := by
  simp [mem_write]

theorem mem_write_prefix_length (mem : List Nat) (off : Nat) (b : List Nat)
    (h : off ≤ mem.length) :
    (mem.take off ++ b).length = off + b.length := by
  simp [List.length_take]
  omega

theorem mem_write_length (mem : List Nat) (off : Nat) (b : List Nat)
    (h : off + b.length ≤ mem.length) :
    (mem_write mem off b).length = mem.length := by
  simp [mem_write]
  omega

theorem mem_write_take (mem : List Nat) (off : Nat) (b : List Nat)
    (h : off ≤ mem.length) :
    (mem_write mem off b).take (off + b.length) = mem.take off ++ b := by
  rw [mem_write_assoc]
  exact List.take_left' (mem_write_prefix_length mem off b h)

theorem mem_write_drop (mem : List Nat) (off : Nat) (b : List Nat)
    (h : off ≤ mem.length) :
    (mem_write mem off b).drop (off + b.length)
      = mem.drop (off + b.length) := by
  rw [mem_write_assoc]
  exact List.drop_left' (mem_write_prefix_length mem off b h)

theorem mem_write_drop_ge (mem : List Nat) (off : Nat) (b : List Nat)
    (n : Nat) (h : off ≤ mem.length) (hn : off + b.length ≤ n) :
    (mem_write mem off b).drop n = mem.drop n := by
  obtain ⟨k, rfl⟩ : ∃ k, n = off + b.length + k :=
    ⟨n - (off + b.length), by omega⟩
  rw [← List.drop_drop k (off + b.length) (mem_write mem off b),
    ← List.drop_drop k (off + b.length) mem, mem_write_drop mem off b h]

theorem mem_write_getElem_ge (mem : List Nat) (off : Nat) (b : List Nat)
    (i : Nat) (h : off + b.length ≤ mem.length) (hi : off + b.length ≤ i) :
    (mem_write mem off b)[i]? = mem[i]? := by
  rw [mem_write_assoc,
    List.getElem?_append_right
      (by rw [mem_write_prefix_length mem off b (by omega)]; omega),
    mem_write_prefix_length mem off b (by omega), List.getElem?_drop]
  congr 1
  omega

/-! Projection lemmas for the modelled Block2 server. -/

theorem server_block2_blknum (p : List Nat) (sm k x : Nat) :
    (server_block2 p sm k x).blknum = k := rfl

theorem server_block2_szx (p : List Nat) (sm k x : Nat) :
    (server_block2 p sm k x).szx = min x sm := rfl

theorem server_block2_bytes (p : List Nat) (sm k x : Nat) :
    (server_block2 p sm k x).bytes
      = (p.drop (k * coap_szx2size (min x sm))).take
          (min (k * coap_szx2size (min x sm) + coap_szx2size (min x sm))
              p.length
            - k * coap_szx2size (min x sm)) := rfl

theorem server_block2_more (p : List Nat) (sm k x : Nat) :
    (server_block2 p sm k x).more
      = decide
          (min (k * coap_szx2size (min x sm) + coap_szx2size (min x sm))
              p.length
            < p.length) := rfl

/-! Step (unfolding) lemmas for the fetch loops. -/

theorem get_blockwise_step_none (engine : Nat → Nat → Option Block2Response)
    (fuel blknum szx : Nat) (h : engine blknum szx = none) :
    nanocoap_sock_get_blockwise engine (fuel + 1) blknum szx
      = Except.error (-ETIMEDOUT) := by
  simp [nanocoap_sock_get_blockwise, h]

theorem get_blockwise_step_some (engine : Nat → Nat → Option Block2Response)
    (fuel blknum szx : Nat) (resp : Block2Response)
    (h : engine blknum szx = some resp) :
    nanocoap_sock_get_blockwise engine (fuel + 1) blknum szx
      = if resp.blknum = blknum then
          (if resp.more then
            (match nanocoap_sock_get_blockwise engine fuel (blknum + 1)
                resp.szx with
            | Except.ok blocks => Except.ok (resp.bytes :: blocks)
            | Except.error e => Except.error e)
          else Except.ok [resp.bytes])
        else Except.error (-EBADMSG) := by
  simp [nanocoap_sock_get_blockwise, h]

theorem fetch_to_buf_step_none (engine : Nat → Nat → Option Block2Response)
    (cap fuel blknum szx : Nat) (mem : List Nat)
    (h : engine blknum szx = none) :
    fetch_to_buf engine cap (fuel + 1) blknum szx mem
      = FetchBufResult.err (-ETIMEDOUT) mem := by
  simp [fetch_to_buf, h]

theorem fetch_to_buf_step_some (engine : Nat → Nat → Option Block2Response)
    (cap fuel blknum szx : Nat) (mem : List Nat) (resp : Block2Response)
    (h : engine blknum szx = some resp) :
    fetch_to_buf engine cap (fuel + 1) blknum szx mem
      = if resp.blknum = blknum then
          (if blknum * coap_szx2size resp.szx + resp.bytes.length ≤ cap then
            (if resp.more then
              fetch_to_buf engine cap fuel (blknum + 1) resp.szx
                (mem_write mem (blknum * coap_szx2size resp.szx) resp.bytes)
            else
              FetchBufResult.ok
                (blknum * coap_szx2size resp.szx + resp.bytes.length)
                (mem_write mem (blknum * coap_szx2size resp.szx) resp.bytes))
          else FetchBufResult.err (-ENOBUFS) mem)
        else FetchBufResult.err (-EBADMSG) mem := by
  simp [fetch_to_buf, h]

/-! Lemmas about the Block1 send loop. -/

theorem block_request_moreFlag (ctx : coap_block_request_t)
    (data : List Nat) (more : Bool) (ok : Bool) :
    (nanocoap_sock_block_request ctx data more ok).moreFlag
      = (more || decide (data.length > coap_szx2size ctx.blksize)) := by
  cases ok <;> rfl

theorem block_request_sent (ctx : coap_block_request_t)
    (data : List Nat) (more : Bool) (ok : Bool) :
    (nanocoap_sock_block_request ctx data more ok).sent
      = data.take (coap_szx2size ctx.blksize) := by
  cases ok <;> rfl

theorem block_request_ctx_ok (ctx : coap_block_request_t)
    (data : List Nat) (more : Bool) :
    (nanocoap_sock_block_request ctx data more true).ctx
      = { ctx with blknum := ctx.blknum + 1 } := rfl

theorem block_request_ctx_fail (ctx : coap_block_request_t)
    (data : List Nat) (more : Bool) :
    (nanocoap_sock_block_request ctx data more false).ctx = ctx := rfl

theorem block1_drive_nil (ctx : coap_block_request_t) (data : List Nat) :
    block1_drive ctx data []
      = { ctx := ctx, blocks := [], flags := [], done := false } := rfl

theorem block1_drive_cons_fail (ctx : coap_block_request_t)
    (data : List Nat) (rest : List Bool) :
    block1_drive ctx data (false :: rest) = block1_drive ctx data rest := rfl

theorem block1_drive_cons_true (ctx : coap_block_request_t)
    (data : List Nat) (rest : List Bool) :
    block1_drive ctx data (true :: rest)
      = (if (nanocoap_sock_block_request ctx data false true).moreFlag then
          { ctx := (block1_drive
              (nanocoap_sock_block_request ctx data false true).ctx
              (data.drop
                (nanocoap_sock_block_request ctx data false true).sent.length)
              rest).ctx,
            blocks := (nanocoap_sock_block_request ctx data false true).sent
              :: (block1_drive
                  (nanocoap_sock_block_request ctx data false true).ctx
                  (data.drop (nanocoap_sock_block_request ctx data
                    false true).sent.length) rest).blocks,
            flags := (nanocoap_sock_block_request ctx data false true).moreFlag
              :: (block1_drive
                  (nanocoap_sock_block_request ctx data false true).ctx
                  (data.drop (nanocoap_sock_block_request ctx data
                    false true).sent.length) rest).flags,
            done := (block1_drive
                (nanocoap_sock_block_request ctx data false true).ctx
                (data.drop (nanocoap_sock_block_request ctx data
                  false true).sent.length) rest).done }
        else
          { ctx := (nanocoap_sock_block_request ctx data false true).ctx,
            blocks := [(nanocoap_sock_block_request ctx data false true).sent],
            flags := [(nanocoap_sock_block_request ctx data
              false true).moreFlag],
            done := true }) := rfl

theorem block1_drive_flatten (sched : List Bool) :
    ∀ (ctx : coap_block_request_t) (data : List Nat),
    (block1_drive ctx data sched).done = true →
    (block1_drive ctx data sched).blocks.flatten = data := by
  induction sched with
  | nil =>
    intro ctx data h
    simp [block1_drive_nil] at h
  | cons ok rest ih =>
    intro ctx data h
    cases ok with
    | false =>
      rw [block1_drive_cons_fail] at h ⊢
      exact ih ctx data h
    | true =>
      rw [block1_drive_cons_true] at h ⊢
      by_cases hm : (nanocoap_sock_block_request ctx data false true).moreFlag
      · rw [if_pos hm] at h ⊢
        dsimp only at h ⊢
        rw [List.flatten_cons, ih _ _ h, block_request_sent]
        exact take_append_drop_length data (coap_szx2size ctx.blksize)
      · rw [if_neg hm] at h ⊢
        dsimp only
        have hlen : data.length ≤ coap_szx2size ctx.blksize := by
          rw [block_request_moreFlag] at hm
          simpa using hm
        simp [block_request_sent, List.take_of_length_le hlen]

theorem block1_drive_blknum (sched : List Bool) :
    ∀ (ctx : coap_block_request_t) (data : List Nat),
    (block1_drive ctx data sched).ctx.blknum
      = ctx.blknum + (block1_drive ctx data sched).blocks.length := by
  induction sched with
  | nil => intro ctx data; simp [block1_drive_nil]
  | cons ok rest ih =>
    intro ctx data
    cases ok with
    | false =>
      rw [block1_drive_cons_fail]
      exact ih ctx data
    | true =>
      rw [block1_drive_cons_true]
      by_cases hm : (nanocoap_sock_block_request ctx data false true).moreFlag
      · rw [if_pos hm]
        dsimp only
        rw [ih, block_request_ctx_ok]
        dsimp only
        rw [List.length_cons]
        omega
      · rw [if_neg hm]
        dsimp only
        rw [block_request_ctx_ok]
        simp

theorem block1_drive_flags (sched : List Bool) :
    ∀ (ctx : coap_block_request_t) (data : List Nat),
    (block1_drive ctx data sched).done = true →
    (block1_drive ctx data sched).flags
      = List.replicate ((block1_drive ctx data sched).flags.length - 1) true
          ++ [false] := by
  induction sched with
  | nil =>
    intro ctx data h
    simp [block1_drive_nil] at h
  | cons ok rest ih =>
    intro ctx data h
    cases ok with
    | false =>
      rw [block1_drive_cons_fail] at h ⊢
      exact ih ctx data h
    | true =>
      rw [block1_drive_cons_true] at h ⊢
      by_cases hm : (nanocoap_sock_block_request ctx data false true).moreFlag
      · rw [if_pos hm] at h ⊢
        dsimp only at h ⊢
        have ihx := ih _ _ h
        have hge : 1 ≤ (block1_drive
            (nanocoap_sock_block_request ctx data false true).ctx
            (data.drop
              (nanocoap_sock_block_request ctx data false true).sent.length)
            rest).flags.length := by
          have := congrArg List.length ihx
          simp at this
          omega
        rw [hm, List.length_cons, Nat.add_sub_cancel]
        conv_rhs =>
          rw [show (block1_drive
              (nanocoap_sock_block_request ctx data false true).ctx
              (data.drop
                (nanocoap_sock_block_request ctx data false true).sent.length)
              rest).flags.length
            = ((block1_drive
                (nanocoap_sock_block_request ctx data false true).ctx
                (data.drop (nanocoap_sock_block_request ctx data
                  false true).sent.length)
                rest).flags.length - 1) + 1 from by omega]
        rw [List.replicate_succ, List.cons_append]
        rw [← ihx]
      · rw [if_neg hm] at h ⊢
        dsimp only
        have : (nanocoap_sock_block_request ctx data false true).moreFlag
            = false := by simpa using hm
        simp [this]

/-! Lemmas about the transaction engine receive loop. -/

theorem engine_run_ok_mem (reqToken : List Nat) (events : List RxEvent) :
    ∀ (retries : Nat) (p : List Nat),
    engine_run reqToken retries events = Except.ok p →
    RxEvent.dgram reqToken p ∈ events := by
  induction events with
  | nil => intro retries p h; simp [engine_run] at h
  | cons e rest ih =>
    intro retries p h
    cases e with
    | timeout =>
      cases retries with
      | zero => simp [engine_run] at h
      | succ r =>
        simp only [engine_run] at h
        exact List.mem_cons_of_mem _ (ih r p h)
    | dgram tok payload =>
      by_cases htok : tok = reqToken
      · subst htok
        simp only [engine_run, if_pos rfl] at h
        obtain rfl : payload = p := by simpa using h
        exact List.mem_cons_self _ _
      · simp only [engine_run, if_neg htok] at h
        exact List.mem_cons_of_mem _ (ih retries p h)

theorem engine_run_no_match_timeout (reqToken : List Nat)
    (events : List RxEvent) :
    ∀ (retries : Nat),
    (∀ p, RxEvent.dgram reqToken p ∉ events) →
    engine_run reqToken retries events = Except.error (-ETIMEDOUT) := by
  induction events with
  | nil => intro retries _; rfl
  | cons e rest ih =>
    intro retries hno
    cases e with
    | timeout =>
      cases retries with
      | zero => rfl
      | succ r =>
        simp only [engine_run]
        exact ih r fun p hp => hno p (List.mem_cons_of_mem _ hp)
    | dgram tok payload =>
      have htok : tok ≠ reqToken := by
        intro hc
        subst hc
        exact hno payload (List.mem_cons_self _ _)
      simp only [engine_run, if_neg htok]
      exact ih retries fun p hp => hno p (List.mem_cons_of_mem _ hp)

/-! Reassembly of the Block2 collect loop against the honest server. -/

theorem collect_spec (payload : List Nat) (serverMax : Nat) :
    ∀ (fuel k szx : Nat),
    k * coap_szx2size (min szx serverMax) ≤ payload.length →
    payload.length ≤ (k + fuel) * coap_szx2size (min szx serverMax) →
    1 ≤ fuel →
    ∃ blocks,
      nanocoap_sock_get_blockwise (honest_engine payload serverMax) fuel k szx
        = Except.ok blocks
      ∧ blocks.flatten
          = payload.drop (k * coap_szx2size (min szx serverMax)) := by
  intro fuel
  induction fuel with
  | zero => intro k szx _ _ h3; exact absurd h3 (by omega)
  | succ n ih =>
    intro k szx h1 h2 _
    set bs := coap_szx2size (min szx serverMax) with hbs
    have hstep := get_blockwise_step_some (honest_engine payload serverMax)
      n k szx (server_block2 payload serverMax k szx) rfl
    rw [server_block2_blknum, if_pos rfl, server_block2_more,
      server_block2_szx, ← hbs] at hstep
    have hmin : min (min szx serverMax) serverMax = min szx serverMax :=
      min_eq_left (min_le_right szx serverMax)
    by_cases hlast : k * bs + bs < payload.length
    · have hmore : decide (min (k * bs + bs) payload.length
          < payload.length) = true := by
        simp [min_lt_iff, hlast]
      rw [hmore, if_pos rfl] at hstep
      have hk1 : (k + 1) * bs ≤ payload.length := by
        have e1 : (k + 1) * bs = k * bs + bs := by ring
        omega
      have hk2 : payload.length ≤ (k + 1 + n) * bs := by
        have e1 : k + 1 + n = k + (n + 1) := by omega
        rw [e1]
        exact h2
      have hn : 1 ≤ n := by
        rcases Nat.eq_zero_or_pos n with h0 | h0
        · subst h0
          have e1 : (k + 1) * bs = k * bs + bs := by ring
          have e2 : k + (0 + 1) = k + 1 := by omega
          rw [e2] at h2
          omega
        · exact h0
      obtain ⟨blocks, hrec, hflat⟩ := ih (k + 1) (min szx serverMax)
        (by rw [hmin, ← hbs]; exact hk1)
        (by rw [hmin, ← hbs]; exact hk2) hn
      rw [hrec] at hstep
      have hbytes : (server_block2 payload serverMax k szx).bytes
          = (payload.drop (k * bs)).take bs := by
        rw [server_block2_bytes, ← hbs]
        congr 1
        omega
      rw [hbytes] at hstep
      refine ⟨(payload.drop (k * bs)).take bs :: blocks, hstep, ?_⟩
      rw [List.flatten_cons]
      rw [hmin, ← hbs] at hflat
      rw [hflat]
      rw [show (k + 1) * bs = k * bs + bs from by ring, ← List.drop_drop]
      exact List.take_append_drop bs (payload.drop (k * bs))
    · have hmore : decide (min (k * bs + bs) payload.length
          < payload.length) = false := by
        simp only [decide_eq_false_iff_not, min_lt_iff]
        omega
      rw [hmore] at hstep
      rw [if_neg (by simp)] at hstep
      have hbytes : (server_block2 payload serverMax k szx).bytes
          = payload.drop (k * bs) := by
        rw [server_block2_bytes, ← hbs]
        rw [show min (k * bs + bs) payload.length - k * bs
            = payload.length - k * bs from by omega]
        exact List.take_of_length_le (by rw [List.length_drop])
      rw [hbytes] at hstep
      exact ⟨[payload.drop (k * bs)], hstep, by simp⟩

/-! Reassembly of the buffer-variant fetch loop against the honest
server. -/

theorem fetch_buf_spec (payload : List Nat) (serverMax cap : Nat)
    (hcap : payload.length ≤ cap) :
    ∀ (fuel k szx : Nat) (mem : List Nat),
    cap ≤ mem.length →
    k * coap_szx2size (min szx serverMax) ≤ payload.length →
    payload.length ≤ (k + fuel) * coap_szx2size (min szx serverMax) →
    1 ≤ fuel →
    fetch_to_buf (honest_engine payload serverMax) cap fuel k szx mem
      = FetchBufResult.ok payload.length
          (mem.take (k * coap_szx2size (min szx serverMax))
            ++ (payload.drop (k * coap_szx2size (min szx serverMax))
              ++ mem.drop payload.length)) := by
  intro fuel
  induction fuel with
  | zero => intro k szx mem _ _ _ h3; exact absurd h3 (by omega)
  | succ n ih =>
    intro k szx mem hmem h1 h2 _
    set bs := coap_szx2size (min szx serverMax) with hbs
    have hstep := fetch_to_buf_step_some (honest_engine payload serverMax)
      cap n k szx mem (server_block2 payload serverMax k szx) rfl
    rw [server_block2_blknum, if_pos rfl, server_block2_more,
      server_block2_szx, ← hbs] at hstep
    have hmin : min (min szx serverMax) serverMax = min szx serverMax :=
      min_eq_left (min_le_right szx serverMax)
    by_cases hlast : k * bs + bs < payload.length
    · have hmore : decide (min (k * bs + bs) payload.length
          < payload.length) = true := by
        simp [min_lt_iff, hlast]
      have hbytes : (server_block2 payload serverMax k szx).bytes
          = (payload.drop (k * bs)).take bs := by
        rw [server_block2_bytes, ← hbs]
        congr 1
        omega
      have hblen : ((payload.drop (k * bs)).take bs).length = bs := by
        rw [List.length_take, List.length_drop]
        omega
      rw [hbytes, hblen, hmore, if_pos (by omega), if_pos rfl] at hstep
      have hk1 : (k + 1) * bs ≤ payload.length := by
        have e1 : (k + 1) * bs = k * bs + bs := by ring
        omega
      have hk2 : payload.length ≤ (k + 1 + n) * bs := by
        have e1 : k + 1 + n = k + (n + 1) := by omega
        rw [e1]
        exact h2
      have hn : 1 ≤ n := by
        rcases Nat.eq_zero_or_pos n with h0 | h0
        · subst h0
          have e1 : (k + 1) * bs = k * bs + bs := by ring
          have e2 : k + (0 + 1) = k + 1 := by omega
          rw [e2] at h2
          omega
        · exact h0
      have hmw_len : (mem_write mem (k * bs)
          ((payload.drop (k * bs)).take bs)).length = mem.length :=
        mem_write_length _ _ _ (by rw [hblen]; omega)
      have hrec := ih (k + 1) (min szx serverMax)
        (mem_write mem (k * bs) ((payload.drop (k * bs)).take bs))
        (by rw [hmw_len]; exact hmem)
        (by rw [hmin, ← hbs]; exact hk1)
        (by rw [hmin, ← hbs]; exact hk2) hn
      rw [hmin, ← hbs] at hrec
      rw [hrec] at hstep
      have e_take : (mem_write mem (k * bs)
            ((payload.drop (k * bs)).take bs)).take ((k + 1) * bs)
          = mem.take (k * bs) ++ (payload.drop (k * bs)).take bs := by
        rw [show (k + 1) * bs
            = k * bs + ((payload.drop (k * bs)).take bs).length from by
          rw [hblen]; ring]
        exact mem_write_take mem (k * bs) _ (by omega)
      have e_drop : (mem_write mem (k * bs)
            ((payload.drop (k * bs)).take bs)).drop payload.length
          = mem.drop payload.length := by
        refine mem_write_drop_ge mem (k * bs) _ payload.length (by omega) ?_
        rw [hblen]
        omega
      rw [e_take, e_drop] at hstep
      rw [hstep]
      have hjoin : (payload.drop (k * bs)).take bs
            ++ payload.drop ((k + 1) * bs)
          = payload.drop (k * bs) := by
        rw [show (k + 1) * bs = k * bs + bs from by ring, ← List.drop_drop]
        exact List.take_append_drop bs (payload.drop (k * bs))
      rw [List.append_assoc, ← List.append_assoc ((payload.drop (k * bs)).take bs),
        hjoin]
    · have hmore : decide (min (k * bs + bs) payload.length
          < payload.length) = false := by
        simp only [decide_eq_false_iff_not, min_lt_iff]
        omega
      have hbytes : (server_block2 payload serverMax k szx).bytes
          = payload.drop (k * bs) := by
        rw [server_block2_bytes, ← hbs]
        rw [show min (k * bs + bs) payload.length - k * bs
            = payload.length - k * bs from by omega]
        exact List.take_of_length_le (by rw [List.length_drop])
      have hblen : (payload.drop (k * bs)).length = payload.length - k * bs :=
        List.length_drop _ _
      rw [hbytes, hblen, hmore] at hstep
      rw [if_pos (by omega), if_neg (by simp)] at hstep
      rw [hstep, show k * bs + (payload.length - k * bs)
          = payload.length from by omega]
      rw [mem_write_assoc, hblen, show k * bs + (payload.length - k * bs)
          = payload.length from by omega, List.append_assoc]

/-! Capacity safety of the buffer-variant fetch loop, for an arbitrary
engine behaviour. -/

theorem fetch_buf_frame (engine : Nat → Nat → Option Block2Response)
    (cap : Nat) :
    ∀ (fuel blknum szx : Nat) (mem : List Nat),
    cap ≤ mem.length →
    (fetch_to_buf engine cap fuel blknum szx mem).buf.length = mem.length
    ∧ ∀ i, cap ≤ i →
      (fetch_to_buf engine cap fuel blknum szx mem).buf[i]? = mem[i]? := by
  intro fuel
  induction fuel with
  | zero =>
    intro blknum szx mem _
    exact ⟨rfl, fun i _ => rfl⟩
  | succ n ih =>
    intro blknum szx mem hm
    rcases hE : engine blknum szx with _ | resp
    · rw [fetch_to_buf_step_none _ _ _ _ _ _ hE]
      exact ⟨rfl, fun i _ => rfl⟩
    · rw [fetch_to_buf_step_some _ _ _ _ _ _ _ hE]
      by_cases hblk : resp.blknum = blknum
      · rw [if_pos hblk]
        by_cases hguard :
            blknum * coap_szx2size resp.szx + resp.bytes.length ≤ cap
        · rw [if_pos hguard]
          have hlen2 : (mem_write mem (blknum * coap_szx2size resp.szx)
              resp.bytes).length = mem.length :=
            mem_write_length _ _ _ (by omega)
          by_cases hmore : resp.more
          · rw [if_pos hmore]
            obtain ⟨ha, hb⟩ := ih (blknum + 1) resp.szx
              (mem_write mem (blknum * coap_szx2size resp.szx) resp.bytes)
              (by rw [hlen2]; exact hm)
            refine ⟨by rw [ha, hlen2], fun i hi => ?_⟩
            rw [hb i hi, mem_write_getElem_ge _ _ _ _ (by omega) (by omega)]
          · rw [if_neg hmore]
            exact ⟨hlen2, fun i hi =>
              mem_write_getElem_ge _ _ _ _ (by omega) (by omega)⟩
        · rw [if_neg hguard]
          exact ⟨rfl, fun i _ => rfl⟩
      · rw [if_neg hblk]
        exact ⟨rfl, fun i _ => rfl⟩

theorem fetch_buf_total_le (engine : Nat → Nat → Option Block2Response)
    (cap : Nat) :
    ∀ (fuel blknum szx : Nat) (mem : List Nat) (total : Nat)
      (mem2 : List Nat),
    fetch_to_buf engine cap fuel blknum szx mem
      = FetchBufResult.ok total mem2 →
    total ≤ cap := by
  intro fuel
  induction fuel with
  | zero =>
    intro blknum szx mem total mem2 h
    exact FetchBufResult.noConfusion h
  | succ n ih =>
    intro blknum szx mem total mem2 h
    rcases hE : engine blknum szx with _ | resp
    · rw [fetch_to_buf_step_none _ _ _ _ _ _ hE] at h
      exact FetchBufResult.noConfusion h
    · rw [fetch_to_buf_step_some _ _ _ _ _ _ _ hE] at h
      by_cases hblk : resp.blknum = blknum
      · rw [if_pos hblk] at h
        by_cases hguard :
            blknum * coap_szx2size resp.szx + resp.bytes.length ≤ cap
        · rw [if_pos hguard] at h
          by_cases hmore : resp.more
          · rw [if_pos hmore] at h
            exact ih _ _ _ _ _ h
          · rw [if_neg hmore] at h
            injection h with h1 h2
            omega
        · rw [if_neg hguard] at h
          exact FetchBufResult.noConfusion h
      · rw [if_neg hblk] at h
        exact FetchBufResult.noConfusion h

/-! ## Claims -/

/-- C1: for every payload, every block-size exponent and any interleaving
of lost or retried rounds, splitting the payload via the Block1 send loop
(when it completes) or fetching it via the Block2 loop and concatenating
the sent/received blocks in block-number order yields exactly the
payload. -/
theorem blockwise_roundtrip_exact :
    (∀ (ctx : coap_block_request_t) (payload : List Nat)
       (sched : List Bool),
      (block1_drive ctx payload sched).done = true →
      (block1_drive ctx payload sched).blocks.flatten = payload)
    ∧ (∀ (payload : List Nat) (serverMax reqSzx fuel : Nat),
      1 ≤ fuel →
      payload.length ≤ fuel * coap_szx2size (min reqSzx serverMax) →
      ∃ blocks,
        nanocoap_sock_get_blockwise (honest_engine payload serverMax)
          fuel 0 reqSzx = Except.ok blocks
        ∧ blocks.flatten = payload) := by
  constructor
  · intro ctx payload sched h
    exact block1_drive_flatten sched ctx payload h
  · intro payload serverMax reqSzx fuel h1 h2
    obtain ⟨blocks, ha, hb⟩ := collect_spec payload serverMax fuel 0 reqSzx
      (by simp) (by simpa using h2) h1
    exact ⟨blocks, ha, by simpa using hb⟩

theorem blockwise_roundtrip_exact_witness :
    ((block1_drive ⟨"r", 0, 3, 0⟩ (List.range 20)
        [false, true, true]).done = true
      ∧ (block1_drive ⟨"r", 0, 3, 0⟩ (List.range 20)
          [false, true, true]).blocks.flatten = List.range 20)
    ∧ (1 ≤ 2
      ∧ (List.range 20).length ≤ 2 * coap_szx2size (min 2 0)
      ∧ ∃ blocks,
          nanocoap_sock_get_blockwise (honest_engine (List.range 20) 0)
            2 0 2 = Except.ok blocks
          ∧ blocks.flatten = List.range 20) :=
  ⟨⟨by decide, blockwise_roundtrip_exact.1 ⟨"r", 0, 3, 0⟩ (List.range 20)
      [false, true, true] (by decide)⟩,
   by decide, by decide,
   blockwise_roundtrip_exact.2 (List.range 20) 0 2 2 (by decide)
     (by decide)⟩

/-- C2: for every blockwise fetch into a fixed caller buffer of capacity
`cap`, before each block append the controller checks
`offset + blockLength ≤ cap`; when the check fails it returns `-ENOBUFS`
and no byte is ever written at or past index `cap` (the memory from index
`cap` on is untouched in every outcome, and its length never changes);
on normal completion the returned total is within the capacity. -/
theorem fetch_to_buf_capacity_safe :
    (∀ (engine : Nat → Nat → Option Block2Response)
       (cap fuel blknum szx : Nat) (mem : List Nat),
      cap ≤ mem.length →
      (fetch_to_buf engine cap fuel blknum szx mem).buf.length = mem.length
      ∧ ∀ i, cap ≤ i →
        (fetch_to_buf engine cap fuel blknum szx mem).buf[i]? = mem[i]?)
    ∧ (∀ (engine : Nat → Nat → Option Block2Response)
       (cap fuel blknum szx : Nat) (mem : List Nat) (resp : Block2Response),
      engine blknum szx = some resp →
      resp.blknum = blknum →
      cap < blknum * coap_szx2size resp.szx + resp.bytes.length →
      fetch_to_buf engine cap (fuel + 1) blknum szx mem
        = FetchBufResult.err (-ENOBUFS) mem)
    ∧ (∀ (engine : Nat → Nat → Option Block2Response)
       (cap fuel blknum szx : Nat) (mem : List Nat) (total : Nat)
       (mem2 : List Nat),
      fetch_to_buf engine cap fuel blknum szx mem
        = FetchBufResult.ok total mem2 →
      total ≤ cap) := by
  refine ⟨fun engine cap fuel blknum szx mem hm =>
      fetch_buf_frame engine cap fuel blknum szx mem hm, ?_,
    fun engine cap fuel blknum szx mem total mem2 h =>
      fetch_buf_total_le engine cap fuel blknum szx mem total mem2 h⟩
  intro engine cap fuel blknum szx mem resp hE hblk hover
  rw [fetch_to_buf_step_some _ _ _ _ _ _ _ hE, if_pos hblk,
    if_neg (by omega)]

theorem fetch_to_buf_capacity_safe_witness :
    honest_engine (List.range 80) 1 1 1
        = some (server_block2 (List.range 80) 1 1 1)
    ∧ (server_block2 (List.range 80) 1 1 1).blknum = 1
    ∧ 50 < 1 * coap_szx2size (server_block2 (List.range 80) 1 1 1).szx
        + (server_block2 (List.range 80) 1 1 1).bytes.length
    ∧ fetch_to_buf (honest_engine (List.range 80) 1) 50 3 1 1
        (List.replicate 60 0)
      = FetchBufResult.err (-ENOBUFS) (List.replicate 60 0) :=
  ⟨rfl, by decide, by decide,
   fetch_to_buf_capacity_safe.2.1 (honest_engine (List.range 80) 1) 50 2 1 1
     (List.replicate 60 0) (server_block2 (List.range 80) 1 1 1) rfl
     (by decide) (by decide)⟩

/-- C3: the transaction engine never delivers a response whose token
differs from the outstanding request's token (every delivered payload
comes from a datagram carrying exactly the request token; non-matching
datagrams are discarded and receiving continues), and if no matching
response arrives the operation returns the timeout error
classification. -/
theorem engine_token_match :
    (∀ (reqToken : List Nat) (retries : Nat) (events : List RxEvent)
       (p : List Nat),
      engine_run reqToken retries events = Except.ok p →
      RxEvent.dgram reqToken p ∈ events)
    ∧ (∀ (reqToken : List Nat) (retries : Nat) (events : List RxEvent),
      (∀ p, RxEvent.dgram reqToken p ∉ events) →
      engine_run reqToken retries events = Except.error (-ETIMEDOUT)) :=
  ⟨fun t r e p h => engine_run_ok_mem t e r p h,
   fun t r e h => engine_run_no_match_timeout t e r h⟩

theorem engine_token_match_witness :
    RxEvent.dgram [1] [7] ∈ [RxEvent.dgram [9] [5], RxEvent.dgram [1] [7]]
    ∧ engine_run [1] 5 [RxEvent.dgram [2] [3], RxEvent.timeout]
        = Except.error (-ETIMEDOUT) :=
  ⟨engine_token_match.1 [1] 0 [RxEvent.dgram [9] [5], RxEvent.dgram [1] [7]]
      [7] rfl,
   engine_token_match.2 [1] 5 [RxEvent.dgram [2] [3], RxEvent.timeout]
     (by intro p hp; simp at hp)⟩

/-- C4: every Block1 send call that returns a failure (negative result)
leaves the block request context (path, blknum, method, blksize)
byte-for-byte unchanged, so the caller may retry the same block. -/
theorem block_request_failure_frame (ctx : coap_block_request_t)
    (data : List Nat) (more ok : Bool)
    (h : (nanocoap_sock_block_request ctx data more ok).res < 0) :
    (nanocoap_sock_block_request ctx data more ok).ctx = ctx := by
  cases ok
  · exact block_request_ctx_fail ctx data more
  · exfalso
    have h2 : (0 : Int) ≤ (nanocoap_sock_block_request ctx data more true).res :=
      Int.ofNat_nonneg (data.take (coap_szx2size ctx.blksize)).length
    omega

theorem block_request_failure_frame_witness :
    (nanocoap_sock_block_request ⟨"r", 4, 3, 0⟩ [1, 2, 3] false false).res < 0
    ∧ (nanocoap_sock_block_request ⟨"r", 4, 3, 0⟩ [1, 2, 3] false false).ctx
        = ⟨"r", 4, 3, 0⟩ :=
  ⟨by decide,
   block_request_failure_frame ⟨"r", 4, 3, 0⟩ [1, 2, 3] false false
     (by decide)⟩

/-- C5: the send-side block number starts at 0 after context
initialization and, over any sequence of Block1 send calls, increases by
exactly 1 on each successful block and by 0 otherwise, so after the send
loop `blknum` equals the number of accepted blocks. -/
theorem block1_blknum_invariant :
    (∀ (path : String) (method blksize : Nat) (r : Int),
      (nanocoap_block_request_init path method blksize r).1.blknum = 0)
    ∧ (∀ (ctx : coap_block_request_t) (data : List Nat) (more : Bool),
      (nanocoap_sock_block_request ctx data more true).ctx.blknum
        = ctx.blknum + 1)
    ∧ (∀ (ctx : coap_block_request_t) (data : List Nat) (more : Bool),
      (nanocoap_sock_block_request ctx data more false).ctx.blknum
        = ctx.blknum)
    ∧ (∀ (ctx : coap_block_request_t) (data : List Nat) (sched : List Bool),
      (block1_drive ctx data sched).ctx.blknum
        = ctx.blknum + (block1_drive ctx data sched).blocks.length) :=
  ⟨fun _ _ _ _ => rfl, fun _ _ _ => rfl, fun _ _ _ => rfl,
   fun ctx data sched => block1_drive_blknum sched ctx data⟩

/-- C6: in every round of the Block2 fetch loop, a response whose echoed
block number differs from the requested block number makes the fetch
return an error to the caller at once (both the callback variant and the
buffer variant): the mismatched block is never accepted, the memory is
untouched, and the round is not silently retried. -/
theorem block2_mismatch_fatal (engine : Nat → Nat → Option Block2Response)
    (cap fuel blknum szx : Nat) (mem : List Nat) (resp : Block2Response)
    (hE : engine blknum szx = some resp) (hne : resp.blknum ≠ blknum) :
    nanocoap_sock_get_blockwise engine (fuel + 1) blknum szx
      = Except.error (-EBADMSG)
    ∧ fetch_to_buf engine cap (fuel + 1) blknum szx mem
      = FetchBufResult.err (-EBADMSG) mem := by
  constructor
  · rw [get_blockwise_step_some _ _ _ _ _ hE, if_neg hne]
  · rw [fetch_to_buf_step_some _ _ _ _ _ _ _ hE, if_neg hne]

theorem block2_mismatch_fatal_witness :
    (fun _ _ => some (Block2Response.mk 5 0 [] false) :
        Nat → Nat → Option Block2Response) 0 0
      = some (Block2Response.mk 5 0 [] false)
    ∧ (Block2Response.mk 5 0 [] false).blknum ≠ 0
    ∧ nanocoap_sock_get_blockwise
        (fun _ _ => some (Block2Response.mk 5 0 [] false)) 1 0 0
      = Except.error (-EBADMSG)
    ∧ fetch_to_buf (fun _ _ => some (Block2Response.mk 5 0 [] false))
        10 1 0 0 [3, 3]
      = FetchBufResult.err (-EBADMSG) [3, 3] :=
  ⟨rfl, by decide,
   (block2_mismatch_fatal (fun _ _ => some (Block2Response.mk 5 0 [] false))
     10 0 0 0 [3, 3] (Block2Response.mk 5 0 [] false) rfl (by decide)).1,
   (block2_mismatch_fatal (fun _ _ => some (Block2Response.mk 5 0 [] false))
     10 0 0 0 [3, 3] (Block2Response.mk 5 0 [] false) rfl (by decide)).2⟩

/-- C7: in every complete Block1 transfer the transmitted more flags are
true for every block except exactly the last one, and on the slicing side
the more flag equals (range.end < total) for the range
[blknum * blocksize, min (blknum * blocksize + blocksize) total). -/
theorem more_flag_last_block :
    (∀ (ctx : coap_block_request_t) (data : List Nat) (sched : List Bool),
      (block1_drive ctx data sched).done = true →
      (block1_drive ctx data sched).flags
        = List.replicate ((block1_drive ctx data sched).flags.length - 1)
            true ++ [false])
    ∧ (∀ s : coap_block_slicer_t,
      slicer_more s = decide (slicer_end s < s.total)) :=
  ⟨fun ctx data sched h => block1_drive_flags sched ctx data h,
   fun _ => rfl⟩

theorem more_flag_last_block_witness :
    (block1_drive ⟨"s", 0, 2, 0⟩ (List.range 40) [true, true, true]).done
      = true
    ∧ (block1_drive ⟨"s", 0, 2, 0⟩ (List.range 40) [true, true, true]).flags
      = List.replicate
          ((block1_drive ⟨"s", 0, 2, 0⟩ (List.range 40)
            [true, true, true]).flags.length - 1) true ++ [false] :=
  ⟨by decide,
   more_flag_last_block.1 ⟨"s", 0, 2, 0⟩ (List.range 40) [true, true, true]
     (by decide)⟩

/-- C8: for every Block1 send call with payload length `len`, caller hint
`more` and block size `2^(blksize+4)`, the more flag placed in the
request's Block1 option equals `more OR len > blocksize`. -/
theorem block1_more_flag_eq (ctx : coap_block_request_t) (data : List Nat)
    (more ok : Bool) :
    (nanocoap_sock_block_request ctx data more ok).moreFlag
      = (more || decide (data.length > 2 ^ (ctx.blksize + 4))) :=
  block_request_moreFlag ctx data more ok

/-- C9: for every Block2 fetch whose requested block-size exponent
exceeds the server's maximum, the server-reported smaller SZX governs the
offsets of all rounds and the client still reassembles the full payload
exactly into the caller buffer, returning its length. -/
theorem block2_szx_clamp_reassembly (payload : List Nat)
    (serverMax reqSzx cap fuel : Nat) (mem : List Nat)
    (hclamp : serverMax < reqSzx)
    (hcap : payload.length ≤ cap) (hmem : cap ≤ mem.length)
    (hfuel : 1 ≤ fuel)
    (henough : payload.length ≤ fuel * coap_szx2size serverMax) :
    fetch_to_buf (honest_engine payload serverMax) cap fuel 0 reqSzx mem
      = FetchBufResult.ok payload.length
          (payload ++ mem.drop payload.length) := by
  have hmin : min reqSzx serverMax = serverMax :=
    min_eq_right (le_of_lt hclamp)
  have hmain := fetch_buf_spec payload serverMax cap hcap fuel 0 reqSzx mem
    hmem (by simp) (by rw [hmin]; simpa using henough) hfuel
  simpa [hmin] using hmain

theorem block2_szx_clamp_reassembly_witness :
    0 < 3
    ∧ (List.range 40).length ≤ 45
    ∧ 45 ≤ (List.replicate 50 9).length
    ∧ 1 ≤ 3
    ∧ (List.range 40).length ≤ 3 * coap_szx2size 0
    ∧ fetch_to_buf (honest_engine (List.range 40) 0) 45 3 0 3
        (List.replicate 50 9)
      = FetchBufResult.ok (List.range 40).length
          (List.range 40 ++ (List.replicate 50 9).drop
            (List.range 40).length) :=
  ⟨by decide, by decide, by decide, by decide, by decide,
   block2_szx_clamp_reassembly (List.range 40) 0 3 45 3
     (List.replicate 50 9) (by decide) (by decide) (by decide) (by decide)
     (by decide)⟩

/-- C10: both context initializers assign path, blknum = 0, method and
blksize before the socket connection is attempted, so the fields hold
their initialized values whatever the connect result is (including a
negative error), and the connect result is returned unchanged; the URL
variant derives path from the URL independently of URL validation. -/
theorem block_request_init_fields :
    (∀ (path : String) (method blksize : Nat) (r : Int),
      (nanocoap_block_request_init path method blksize r).1.path = path
      ∧ (nanocoap_block_request_init path method blksize r).1.blknum = 0
      ∧ (nanocoap_block_request_init path method blksize r).1.method = method
      ∧ (nanocoap_block_request_init path method blksize r).1.blksize
          = blksize
      ∧ (nanocoap_block_request_init path method blksize r).2 = r)
    ∧ (∀ (urlpathOf : String → String) (url : String)
       (method blksize : Nat) (r : Int),
      (nanocoap_block_request_init_url urlpathOf url method blksize
          r).1.path = urlpathOf url
      ∧ (nanocoap_block_request_init_url urlpathOf url method blksize
          r).1.blknum = 0
      ∧ (nanocoap_block_request_init_url urlpathOf url method blksize
          r).1.method = method
      ∧ (nanocoap_block_request_init_url urlpathOf url method blksize
          r).1.blksize = blksize
      ∧ (nanocoap_block_request_init_url urlpathOf url method blksize
          r).2 = r) :=
  ⟨fun _ _ _ _ => ⟨rfl, rfl, rfl, rfl, rfl⟩,
   fun _ _ _ _ _ => ⟨rfl, rfl, rfl, rfl, rfl⟩⟩

end NanocoapSock
